import Mathlib

/-!
Shallow embedding of `keyHawk.py` (the keyhawk secret scanner) and proofs of
the specification's claims about it.

Modelling conventions:
* Python `dict`s become association lists (`List (String × α)`) with
  `dictGet` / `dictSet` mirroring lookup and assignment (assignment keeps the
  first insertion position of an existing key, as CPython dicts do).
* Python `set`s of matched strings become duplicate-free `List String`s in
  first-insertion order, with `setUpdate` modelling `set.update` (CPython's
  set iteration order is unspecified; the model fixes one concrete order,
  and the set-semantics facts — no duplicates, order-insensitive membership
  — are proved as theorems).
* The `re` regex engine is an external library, so the scanner is parametrised
  by an abstract `findall : String → String → Option (List String)` where
  `none` models `re.error` raised by `re.compile` and `some ms` the list of
  non-overlapping matches returned by `Pattern.findall`.  A concrete engine
  `litEngine` for the fragment "word-boundary-wrapped literal pattern" is
  defined below to exercise the concrete word-boundary examples.
* `subprocess.run` becomes an abstract `exec : String → Except Unit ExecResult`;
  `Except.error` models an arbitrary exception raised during the invocation.
  `validate_token` itself returns `Except Unit (String × Option Bool)` so that
  "no exception propagates" is a provable statement, not a typing artefact.
* The tri-state verification outcome `None / True / False` of the Python code
  becomes `Option Bool` (`none` = Unknown, `some true` = Valid,
  `some false` = Invalid).
-/

/-- Association-list model of Python `d[k]` lookup (`None`-free: `Option`). -/
def dictGet {α : Type} (d : List (String × α)) (k : String) : Option α :=
  (d.find? (fun p => p.1 == k)).map (·.2)

/-- Association-list model of Python `d[k] = v`: overwrite in place when the
key exists, append otherwise (CPython dicts keep the first insertion
position of a key). -/
def dictSet {α : Type} (d : List (String × α)) (k : String) (v : α) :
    List (String × α) :=
  if d.any (fun p => p.1 == k) then
    d.map (fun p => if p.1 == k then (k, v) else p)
  else
    d ++ [(k, v)]

/-- The keys of an association list, in order. -/
def dictKeys {α : Type} (d : List (String × α)) : List String :=
  d.map Prod.fst

theorem dictGet_eq_none_iff {α : Type} (d : List (String × α)) (k : String) :
    dictGet d k = none ↔ k ∉ dictKeys d := by
  induction d with
  | nil => simp [dictGet, dictKeys]
  | cons p rest ih =>
    by_cases h : p.1 = k
    · simp [dictGet, dictKeys, List.find?, h]
    · simp only [dictGet, dictKeys, List.find?, List.map_cons, List.mem_cons] at *
      rw [show (p.1 == k) = false by simp [h]]
      simp only [cond_false]
      constructor
      · intro hg
        rcases (ih.mp hg) with hk
        exact fun hc => hc.elim (fun e => h e.symm) hk
      · intro hk
        exact ih.mpr (fun hm => hk (Or.inr hm))

theorem dictGet_isSome_iff {α : Type} (d : List (String × α)) (k : String) :
    (dictGet d k).isSome ↔ k ∈ dictKeys d := by
  rw [Option.isSome_iff_ne_none, ne_eq, dictGet_eq_none_iff, not_not]

theorem dictKeys_dictSet_of_mem {α : Type} (d : List (String × α)) (k : String)
    (v : α) (h : k ∈ dictKeys d) : dictKeys (dictSet d k v) = dictKeys d := by
  have hany : d.any (fun p => p.1 == k) = true := by
    rw [List.any_eq_true]
    rcases List.mem_map.mp h with ⟨p, hp, he⟩
    exact ⟨p, hp, by simp [he]⟩
  simp only [dictSet, hany, if_pos, dictKeys, List.map_map]
  apply List.map_congr_left
  intro p _
  by_cases hp : p.1 = k
  · simp [hp]
  · simp [hp]

theorem dictKeys_dictSet_of_not_mem {α : Type} (d : List (String × α))
    (k : String) (v : α) (h : k ∉ dictKeys d) :
    dictKeys (dictSet d k v) = dictKeys d ++ [k] := by
  have hany : d.any (fun p => p.1 == k) = false := by
    rw [List.any_eq_false]
    intro p hp
    simp only [beq_iff_eq]
    intro he
    exact h (List.mem_map.mpr ⟨p, hp, he⟩)
  simp [dictSet, hany, dictKeys]

theorem dictGet_map_overwrite {α : Type} (d : List (String × α)) (k k' : String)
    (v : α) (h : k' ≠ k) :
    dictGet (d.map (fun p => if p.1 == k then (k, v) else p)) k' = dictGet d k' := by
  induction d with
  | nil => rfl
  | cons p rest ih =>
    by_cases hp : p.1 = k
    · have h1 : (p.1 == k) = true := by simp [hp]
      have h2 : (k == k') = false := by simp; exact fun e => h e.symm
      have h3 : (p.1 == k') = false := by simp [hp]; exact fun e => h e.symm
      simp only [List.map_cons, h1, if_pos, dictGet, List.find?, h2, h3, cond_false]
      exact ih
    · have h1 : (p.1 == k) = false := by simp [hp]
      simp only [List.map_cons, h1, Bool.false_eq_true, if_neg, not_false_iff,
        dictGet, List.find?]
      cases hc : (p.1 == k') with
      | true => rfl
      | false => exact ih

theorem dictGet_append_single {α : Type} (d : List (String × α)) (k k' : String)
    (v : α) :
    dictGet (d ++ [(k, v)]) k' =
      ((dictGet d k').orElse (fun _ => if k == k' then some v else none)) := by
  induction d with
  | nil =>
    simp only [List.nil_append, dictGet, List.find?]
    cases hc : (k == k') <;> simp [Option.orElse]
  | cons p rest ih =>
    simp only [List.cons_append, dictGet, List.find?]
    cases hc : (p.1 == k') with
    | true => simp [Option.orElse]
    | false => exact ih

theorem dictGet_dictSet_self {α : Type} (d : List (String × α)) (k : String)
    (v : α) : dictGet (dictSet d k v) k = some v := by
  unfold dictSet
  split
  · rename_i hmem
    rw [List.any_eq_true] at hmem
    rcases hmem with ⟨q, hq, hqk⟩
    have hq1 : q.1 = k := by simpa using hqk
    induction d with
    | nil => cases hq
    | cons p rest ih =>
      by_cases hp : p.1 = k
      · have h1 : (p.1 == k) = true := by simp [hp]
        simp [dictGet, List.find?, h1]
      · have h1 : (p.1 == k) = false := by simp [hp]
        simp only [List.map_cons, h1, Bool.false_eq_true, if_neg, not_false_iff,
          dictGet, List.find?, h1, cond_false]
        rcases List.mem_cons.mp hq with he | hm
        · exact absurd (he ▸ hq1) hp
        · exact ih hm
  · rename_i hmem
    rw [Bool.not_eq_true, List.any_eq_false] at hmem
    induction d with
    | nil => simp [dictGet, List.find?]
    | cons p rest ih =>
      have h1 : (p.1 == k) = false := by
        have := hmem p (by simp)
        simpa using this
      simp only [List.cons_append, dictGet, List.find?, h1, cond_false]
      exact ih (fun q hq => hmem q (List.mem_cons_of_mem p hq))

theorem dictGet_dictSet_ne {α : Type} (d : List (String × α)) (k k' : String)
    (v : α) (h : k' ≠ k) : dictGet (dictSet d k v) k' = dictGet d k' := by
  unfold dictSet
  split
  · exact dictGet_map_overwrite d k k' v h
  · rw [dictGet_append_single d k k' v]
    have h2 : (k == k') = false := by simp; exact fun e => h e.symm
    rw [h2]
    cases dictGet d k' <;> simp [Option.orElse]

theorem dictKeys_nodup_dictSet {α : Type} (d : List (String × α)) (k : String)
    (v : α) (h : (dictKeys d).Nodup) : (dictKeys (dictSet d k v)).Nodup := by
  by_cases hk : k ∈ dictKeys d
  · rwa [dictKeys_dictSet_of_mem d k v hk]
  · rw [dictKeys_dictSet_of_not_mem d k v hk]
    simpa [List.nodup_append] using ⟨h, hk⟩

theorem mem_dictKeys_dictSet {α : Type} (d : List (String × α)) (k k' : String)
    (v : α) : k' ∈ dictKeys (dictSet d k v) ↔ k' ∈ dictKeys d ∨ k' = k := by
  by_cases hk : k ∈ dictKeys d
  · rw [dictKeys_dictSet_of_mem d k v hk]
    constructor
    · exact Or.inl
    · rintro (h | rfl)
      · exact h
      · exact hk
  · rw [dictKeys_dictSet_of_not_mem d k v hk]
    simp

/-- A named regex pattern, one record of the loaded `regex.json` list. -/
structure PatternDef where
  name : String
  regex : String
deriving DecidableEq

/-- The word-boundary wrapping applied to each regex at line 50 of
`keyHawk.py`: `regex = r'\b' + pattern['regex'] + r'\b'`. -/
def wrapRegex (r : String) : String := "\\b" ++ r ++ "\\b"

/-- Model of Python `s.update(ms)` on a set represented as a duplicate-free
list: insert each element of `ms` in turn unless already present. -/
def setUpdate (s : List String) (ms : List String) : List String :=
  ms.foldl (fun acc m => if m ∈ acc then acc else acc ++ [m]) s

/-- The seeding loop of `find_matches` (lines 44–45): one empty set per
pattern name. -/
def initResults (ps : List PatternDef) : List (String × List String) :=
  ps.foldl (fun d p => dictSet d p.name []) []

/-- One iteration of the scanning loop of `find_matches` (lines 48–60):
compile the wrapped regex, union the matches found into the pattern's slot,
and append the progress (or warning) message to the log.  The regex engine is
abstract: `findall r t = none` models `re.compile` raising `re.error`, and
`some ms` the list returned by `findall` on the compiled pattern. -/
def scanPattern (findall : String → String → Option (List String))
    (text : String) (acc : List (String × List String) × List String)
    (p : PatternDef) : List (String × List String) × List String :=
  match findall (wrapRegex p.regex) text with
  | some ms =>
      if ms ≠ [] then
        (dictSet acc.1 p.name (setUpdate ((dictGet acc.1 p.name).getD []) ms),
         acc.2 ++ ["Found " ++ toString ms.length ++ " matches for " ++ p.name])
      else
        (acc.1, acc.2 ++ ["No matches for " ++ p.name])
  | none =>
      (acc.1,
       acc.2 ++ ["Warning: Invalid regex pattern for " ++ p.name ++ ": " ++
         wrapRegex p.regex])

/-- `APIFinder.find_matches` (lines 41–60): the final `self.results`
dictionary together with the log of emitted messages. -/
def find_matches (findall : String → String → Option (List String))
    (ps : List PatternDef) (text : String) :
    List (String × List String) × List String :=
  ps.foldl (scanPattern findall text) (initResults ps, ["Scanning patterns..."])

/-- The list `findall` produces for one pattern, with both the
compile-error case (`none`) and the no-match case collapsing to `[]` —
in either case the scanning loop leaves the pattern's slot untouched. -/
def rawMatches (findall : String → String → Option (List String))
    (text : String) (p : PatternDef) : List String :=
  (findall (wrapRegex p.regex) text).getD []

/-- The set of matches a single pattern contributes: empty when its regex
fails to compile, otherwise the distinct strings `findall` returns, in
first-occurrence order. -/
def patternMatches (findall : String → String → Option (List String))
    (text : String) (p : PatternDef) : List String :=
  setUpdate [] (rawMatches findall text p)

theorem mem_dictKeys_initResults_loop (ps : List PatternDef)
    (d : List (String × List String)) (n : String) :
    n ∈ dictKeys (ps.foldl (fun d p => dictSet d p.name []) d) ↔
      n ∈ dictKeys d ∨ n ∈ ps.map PatternDef.name := by
  induction ps generalizing d with
  | nil => simp
  | cons p rest ih =>
    simp only [List.foldl_cons, List.map_cons, List.mem_cons]
    rw [ih, mem_dictKeys_dictSet]
    tauto

theorem mem_dictKeys_initResults (ps : List PatternDef) (n : String) :
    n ∈ dictKeys (initResults ps) ↔ n ∈ ps.map PatternDef.name := by
  rw [initResults, mem_dictKeys_initResults_loop]
  simp [dictKeys]

theorem dictKeys_initResults_loop_nodup (ps : List PatternDef)
    (d : List (String × List String)) (h : (dictKeys d).Nodup) :
    (dictKeys (ps.foldl (fun d p => dictSet d p.name []) d)).Nodup := by
  induction ps generalizing d with
  | nil => exact h
  | cons p rest ih =>
    exact ih _ (dictKeys_nodup_dictSet d p.name [] h)

theorem dictKeys_initResults_nodup (ps : List PatternDef) :
    (dictKeys (initResults ps)).Nodup :=
  dictKeys_initResults_loop_nodup ps [] (by simp [dictKeys])

theorem dictGet_initResults_loop_empty (ps : List PatternDef)
    (d : List (String × List String))
    (h : ∀ k s, dictGet d k = some s → s = []) :
    ∀ k s, dictGet (ps.foldl (fun d p => dictSet d p.name []) d) k = some s →
      s = [] := by
  induction ps generalizing d with
  | nil => exact h
  | cons p rest ih =>
    refine ih _ (fun k s hs => ?_)
    by_cases hk : k = p.name
    · subst hk
      rw [dictGet_dictSet_self] at hs
      exact (Option.some_inj.mp hs).symm
    · rw [dictGet_dictSet_ne _ _ _ _ hk] at hs
      exact h k s hs

theorem dictGet_initResults (ps : List PatternDef) (q : PatternDef)
    (hq : q ∈ ps) : dictGet (initResults ps) q.name = some [] := by
  have hmem : q.name ∈ dictKeys (initResults ps) :=
    (mem_dictKeys_initResults ps q.name).mpr
      (List.mem_map.mpr ⟨q, hq, rfl⟩)
  have hsome := (dictGet_isSome_iff (initResults ps) q.name).mpr hmem
  rcases Option.isSome_iff_exists.mp hsome with ⟨s, hs⟩
  have : s = [] :=
    dictGet_initResults_loop_empty ps [] (by intro k s h; simp [dictGet] at h)
      q.name s hs
  rw [hs, this]

theorem scanPattern_get_ne (findall : String → String → Option (List String))
    (text : String) (acc : List (String × List String) × List String)
    (p : PatternDef) (k : String) (hk : k ≠ p.name) :
    dictGet (scanPattern findall text acc p).1 k = dictGet acc.1 k := by
  rcases hfa : findall (wrapRegex p.regex) text with _ | ms
  · simp only [scanPattern, hfa]
  · simp only [scanPattern, hfa]
    by_cases hms : ms ≠ []
    · rw [if_pos hms]
      exact dictGet_dictSet_ne _ _ _ _ hk
    · rw [if_neg hms]

theorem scanPattern_get_self (findall : String → String → Option (List String))
    (text : String) (acc : List (String × List String) × List String)
    (p : PatternDef) (s : List String) (hs : dictGet acc.1 p.name = some s) :
    dictGet (scanPattern findall text acc p).1 p.name =
      some (setUpdate s (rawMatches findall text p)) := by
  rcases hfa : findall (wrapRegex p.regex) text with _ | ms
  · simp only [scanPattern, rawMatches, hfa]
    exact hs
  · simp only [scanPattern, rawMatches, hfa]
    by_cases hms : ms ≠ []
    · rw [if_pos hms]
      show dictGet (dictSet acc.1 p.name (setUpdate ((dictGet acc.1 p.name).getD []) ms))
          p.name = some (setUpdate s ms)
      rw [hs]
      exact dictGet_dictSet_self acc.1 p.name (setUpdate s ms)
    · rw [if_neg hms]
      rw [not_not] at hms
      subst hms
      exact hs

theorem scanPattern_keys (findall : String → String → Option (List String))
    (text : String) (acc : List (String × List String) × List String)
    (p : PatternDef) (h : p.name ∈ dictKeys acc.1) :
    dictKeys (scanPattern findall text acc p).1 = dictKeys acc.1 := by
  rcases hfa : findall (wrapRegex p.regex) text with _ | ms
  · simp only [scanPattern, hfa]
  · simp only [scanPattern, hfa]
    by_cases hms : ms ≠ []
    · rw [if_pos hms]
      exact dictKeys_dictSet_of_mem _ _ _ h
    · rw [if_neg hms]

theorem scan_loop_keys (findall : String → String → Option (List String))
    (text : String) (ps : List PatternDef)
    (acc : List (String × List String) × List String)
    (h : ∀ p ∈ ps, p.name ∈ dictKeys acc.1) :
    dictKeys (ps.foldl (scanPattern findall text) acc).1 = dictKeys acc.1 := by
  induction ps generalizing acc with
  | nil => rfl
  | cons p rest ih =>
    have hstep := scanPattern_keys findall text acc p (h p (by simp))
    rw [List.foldl_cons, ih (scanPattern findall text acc p)
      (fun q hq => by rw [hstep]; exact h q (List.mem_cons_of_mem p hq)), hstep]

theorem scan_loop_get_not_mem (findall : String → String → Option (List String))
    (text : String) (ps : List PatternDef)
    (acc : List (String × List String) × List String) (k : String)
    (hk : k ∉ ps.map PatternDef.name) :
    dictGet (ps.foldl (scanPattern findall text) acc).1 k = dictGet acc.1 k := by
  induction ps generalizing acc with
  | nil => rfl
  | cons p rest ih =>
    have hne : k ≠ p.name := fun he => hk (by simp [he])
    rw [List.foldl_cons, ih (scanPattern findall text acc p)
      (fun hm => hk (by simp [List.mem_cons]; right; simpa using hm)),
      scanPattern_get_ne findall text acc p k hne]

theorem scan_loop_get_self (findall : String → String → Option (List String))
    (text : String) (ps : List PatternDef)
    (acc : List (String × List String) × List String) (q : PatternDef)
    (hq : q ∈ ps) (hnodup : (ps.map PatternDef.name).Nodup) (s : List String)
    (hs : dictGet acc.1 q.name = some s) :
    dictGet (ps.foldl (scanPattern findall text) acc).1 q.name =
      some (setUpdate s (rawMatches findall text q)) := by
  induction ps generalizing acc with
  | nil => cases hq
  | cons p rest ih =>
    rw [List.map_cons, List.nodup_cons] at hnodup
    rcases List.mem_cons.mp hq with he | hm
    · subst he
      rw [List.foldl_cons,
        scan_loop_get_not_mem findall text rest _ q.name hnodup.1,
        scanPattern_get_self findall text acc q s hs]
    · have hne : q.name ≠ p.name := by
        intro he
        exact hnodup.1 (he ▸ List.mem_map.mpr ⟨q, hm, rfl⟩)
      rw [List.foldl_cons]
      exact ih (scanPattern findall text acc p) hm hnodup.2
        (by rw [scanPattern_get_ne findall text acc p q.name hne]; exact hs)

theorem find_matches_get (findall : String → String → Option (List String))
    (ps : List PatternDef) (text : String) (q : PatternDef) (hq : q ∈ ps)
    (hnodup : (ps.map PatternDef.name).Nodup) :
    dictGet (find_matches findall ps text).1 q.name =
      some (patternMatches findall text q) := by
  unfold find_matches
  rw [scan_loop_get_self findall text ps _ q hq hnodup []
    (dictGet_initResults ps q hq)]
  rfl

theorem find_matches_keys (findall : String → String → Option (List String))
    (ps : List PatternDef) (text : String) :
    dictKeys (find_matches findall ps text).1 = dictKeys (initResults ps) := by
  unfold find_matches
  exact scan_loop_keys findall text ps _
    (fun p hp => (mem_dictKeys_initResults ps p.name).mpr
      (List.mem_map.mpr ⟨p, hp, rfl⟩))

/-- Word characters in the sense of Python's `\b` and `\w` (ASCII fragment:
letters, digits and underscore). -/
def isWordChar (c : Char) : Bool := c.isAlphanum || c == '_'

/-- Whether the position after `prev` is a word boundary for a match that
starts with a word character (`none` = start of text). -/
def noWordBefore : Option Char → Bool
  | none => true
  | some p => !isWordChar p

/-- Whether the position before `next` is a word boundary for a match that
ends with a word character (`[]` = end of text). -/
def noWordAfter : List Char → Bool
  | [] => true
  | d :: _ => !isWordChar d

/-- Model of Python `re` findall for the fragment used by the scanner's
concrete examples: the pattern is `\b` + a literal of word characters + `\b`,
and the scan collects non-overlapping occurrences left to right, each
flanked by word boundaries.  `fuel` bounds the recursion and is set to the
text length, which the scan never exceeds. -/
def boundaryScan (lit : List Char) : Nat → Option Char → List Char → List String
  | 0, _, _ => []
  | _ + 1, _, [] => []
  | fuel + 1, prev, c :: rest =>
    if !lit.isEmpty && lit.isPrefixOf (c :: rest) && noWordBefore prev &&
        noWordAfter ((c :: rest).drop lit.length) then
      String.mk lit ::
        boundaryScan lit fuel lit.getLast? ((c :: rest).drop lit.length)
    else
      boundaryScan lit fuel (some c) rest

/-- Regex engine covering word-boundary-wrapped literal patterns: strips the
`\b` wrappers added by `wrapRegex` and scans for the literal body. -/
def litEngine (regex text : String) : Option (List String) :=
  some (boundaryScan ((regex.toList.drop 2).dropLast.dropLast)
    text.toList.length none text.toList)

/-- Structural model of Python's substring test `needle in hay`. -/
def containsSubList (needle : List Char) : List Char → Bool
  | [] => needle.isEmpty
  | c :: rest => needle.isPrefixOf (c :: rest) || containsSubList needle rest

/-- Python `needle in hay` on strings. -/
def containsSub (needle hay : String) : Bool :=
  containsSubList needle.toList hay.toList

/-- Model of Python `str.replace` for a nonempty pattern: replace every
non-overlapping occurrence, left to right, without rescanning the
replacement.  `fuel` bounds the recursion and is set to the subject's
length, which the scan never exceeds. -/
def replaceFuel (pat rep : List Char) : Nat → List Char → List Char
  | 0, s => s
  | _ + 1, [] => []
  | fuel + 1, c :: rest =>
    if !pat.isEmpty && pat.isPrefixOf (c :: rest) then
      rep ++ replaceFuel pat rep fuel ((c :: rest).drop pat.length)
    else
      c :: replaceFuel pat rep fuel rest

/-- Python `s.replace(pat, rep)` (for the nonempty pattern strings `$dc$`
and `$token$` the program uses). -/
def strReplace (s pat rep : String) : String :=
  String.mk (replaceFuel pat.toList rep.toList s.toList.length s.toList)

/-- Model of Python `str.lower` (character-wise). -/
def strLower (s : String) : String := String.mk (s.toList.map Char.toLower)

/-- Model of Python `s.startswith(pre)`. -/
def startsWithStr (s pre : String) : Bool := pre.toList.isPrefixOf s.toList

/-- A match of `re.search(r'us\d{1,2}$', ·)` of length four: the last four
characters are `us` followed by two digits. -/
def dcTail4 : List Char → Option String
  | ['u', 's', a, b] =>
    if a.isDigit && b.isDigit then some (String.mk ['u', 's', a, b]) else none
  | _ => none

/-- A match of `re.search(r'us\d{1,2}$', ·)` of length three: the last three
characters are `us` followed by one digit. -/
def dcTail3 : List Char → Option String
  | ['u', 's', a] => if a.isDigit then some (String.mk ['u', 's', a]) else none
  | _ => none

/-- Model of `re.search(r'us\d{1,2}$', s)` (lines 86 and 116): any match is a
suffix `us` + one or two digits, and `re.search` returns the leftmost one,
i.e. the two-digit suffix when present, else the one-digit one.  (The
fragment ignores `$` also matching before a lone trailing newline.) -/
def dcSuffix (s : String) : Option String :=
  (dcTail4 (s.toList.drop (s.toList.length - 4))).orElse
    (fun _ => dcTail3 (s.toList.drop (s.toList.length - 3)))

/-- The observable behaviour of one `subprocess.run` call: exit status and
captured standard output. -/
structure ExecResult where
  returncode : Int
  stdout : String
deriving DecidableEq

/-- The Mailchimp-specific `$dc$` step of `validate_token` (lines 115–121):
for the pattern "Mailchimp API Key", extract the datacenter suffix and
substitute it into the command template, or fail (`none`, which the caller
turns into the Invalid outcome with no command run); every other pattern
passes its template through unchanged. -/
def mailchimpStep (token_name token_value method0 : String) : Option String :=
  if token_name = "Mailchimp API Key" then
    match dcSuffix token_value with
    | some dc => some (strReplace method0 "$dc$" dc)
    | none => none
  else some method0

/-- The `try`-block of `validate_token` (lines 124–136): run the fully
substituted command and classify the captured output.  `Except.error` from
`exec` models an exception raised by `subprocess.run`; the `except` clause
is the arm turning it into the Invalid outcome. -/
def runClassify (exec : String → Except Unit ExecResult)
    (token_name token_value method : String) :
    Except Unit (String × Option Bool) :=
  match exec method with
  | Except.error _ => Except.ok (token_value, some false)
  | Except.ok result =>
    if result.returncode = 0 then
      if token_name = "Heroku API Key" then
        if startsWithStr result.stdout "[" &&
            containsSub "\"id\"" result.stdout then
          Except.ok (token_value, some true)
        else Except.ok (token_value, some false)
      else if containsSub "200" result.stdout ||
          containsSub "id" (strLower result.stdout) ||
          containsSub "ok" (strLower result.stdout) then
        Except.ok (token_value, some true)
      else Except.ok (token_value, some false)
    else Except.ok (token_value, some false)

/-- `validate_token` (lines 109–136): registry lookup, Mailchimp `$dc$`
step, `$token$` substitution, then `runClassify`.  The function's `Except`
result makes exception propagation observable.  The outcome is `none` =
`None` (Unknown), `some true` = `True` (Valid), `some false` = `False`
(Invalid). -/
def validate_token (exec : String → Except Unit ExecResult)
    (args : String × String × List (String × String)) :
    Except Unit (String × Option Bool) :=
  let token_name := args.1
  let token_value := args.2.1
  let verification_methods := args.2.2
  match dictGet verification_methods token_name with
  | none => Except.ok (token_value, none)
  | some method0 =>
    match mailchimpStep token_name token_value method0 with
    | none => Except.ok (token_value, some false)
    | some m => runClassify exec token_name token_value (strReplace m "$token$" token_value)

/-- The task list built by `validate_all_tokens` (lines 140–143): one task
per (pattern name, matched string, registry) triple, patterns in dictionary
order, matches in the (model's) set order. -/
def validationTasks (results : List (String × List String))
    (vm : List (String × String)) :
    List (String × String × List (String × String)) :=
  results.foldl (fun acc nm => acc ++ nm.2.map (fun m => (nm.1, m, vm))) []

/-- Python `dict(pairs)`: build a dict from a pair list, later pairs
overwriting earlier ones. -/
def pairsToDict {α : Type} (l : List (String × α)) : List (String × α) :=
  l.foldl (fun d p => dictSet d p.1 p.2) []

/-- `validate_all_tokens` (lines 138–148): map `validate_token` over the
task list (`Pool.map` re-raises a task's exception, which `mapM` models),
then build the result dictionary keyed by matched string. -/
def validate_all_tokens (exec : String → Except Unit ExecResult)
    (results : List (String × List String)) (vm : List (String × String)) :
    Except Unit (List (String × Option Bool)) := do
  let validated ← (validationTasks results vm).mapM (validate_token exec)
  return pairsToDict validated

/-- Rendering of one matched string inside `display_results` (lines 72–81,
colour markup dropped): mirrors the Python truthiness test
`if validated_results and match in validated_results` and the tri-state
label choice. -/
def matchLine (validated : Option (List (String × Option Bool)))
    (m : String) : String :=
  match validated with
  | none => "  - " ++ m
  | some vr =>
    if vr = [] then "  - " ++ m
    else
      match dictGet vr m with
      | none => "  - " ++ m
      | some none => "  - " ++ m ++ " [No verification method]"
      | some (some true) => "  - " ++ m ++ " [Valid]"
      | some (some false) => "  - " ++ m ++ " [Invalid]"

theorem mem_setUpdate (s ms : List String) (x : String) :
    x ∈ setUpdate s ms ↔ x ∈ s ∨ x ∈ ms := by
  induction ms generalizing s with
  | nil => simp [setUpdate]
  | cons m rest ih =>
    show x ∈ setUpdate (if m ∈ s then s else s ++ [m]) rest ↔ _
    rw [ih]
    by_cases hm : m ∈ s
    · rw [if_pos hm]
      constructor
      · rintro (h | h)
        · exact Or.inl h
        · exact Or.inr (by simp [h])
      · rintro (h | h)
        · exact Or.inl h
        · rcases List.mem_cons.mp h with rfl | h
          · exact Or.inl hm
          · exact Or.inr h
    · rw [if_neg hm]
      simp only [List.mem_append, List.mem_singleton, List.mem_cons]
      tauto

theorem setUpdate_nodup (s ms : List String) (h : s.Nodup) :
    (setUpdate s ms).Nodup := by
  induction ms generalizing s with
  | nil => exact h
  | cons m rest ih =>
    show (setUpdate (if m ∈ s then s else s ++ [m]) rest).Nodup
    by_cases hm : m ∈ s
    · rw [if_pos hm]
      exact ih s h
    · rw [if_neg hm]
      exact ih _ (by simpa [List.nodup_append] using ⟨h, hm⟩)

theorem runClassify_ok (exec : String → Except Unit ExecResult)
    (token_name token_value method : String) :
    ∃ b : Option Bool,
      runClassify exec token_name token_value method =
        Except.ok (token_value, b) := by
  unfold runClassify
  rcases exec method with _ | res
  · exact ⟨some false, rfl⟩
  · dsimp only
    by_cases h0 : res.returncode = 0
    · rw [if_pos h0]
      by_cases hh : token_name = "Heroku API Key"
      · rw [if_pos hh]
        by_cases hc : (startsWithStr res.stdout "[" &&
            containsSub "\"id\"" res.stdout) = true
        · rw [if_pos hc]; exact ⟨some true, rfl⟩
        · rw [if_neg hc]; exact ⟨some false, rfl⟩
      · rw [if_neg hh]
        by_cases hc : (containsSub "200" res.stdout ||
            containsSub "id" (strLower res.stdout) ||
            containsSub "ok" (strLower res.stdout)) = true
        · rw [if_pos hc]; exact ⟨some true, rfl⟩
        · rw [if_neg hc]; exact ⟨some false, rfl⟩
    · rw [if_neg h0]; exact ⟨some false, rfl⟩

theorem validate_token_ok (exec : String → Except Unit ExecResult)
    (args : String × String × List (String × String)) :
    ∃ b : Option Bool,
      validate_token exec args = Except.ok (args.2.1, b) := by
  rcases args with ⟨name, tv, vm⟩
  unfold validate_token
  dsimp only
  rcases dictGet vm name with _ | method0
  · exact ⟨none, rfl⟩
  · dsimp only
    rcases mailchimpStep name tv method0 with _ | m
    · exact ⟨some false, rfl⟩
    · exact runClassify_ok exec name tv (strReplace m "$token$" tv)

/-- The pure outcome of one verification task.  `validate_token` never
returns `Except.error` (`validate_token_ok`), so the default arm is
unreachable and `tokenOutcome` is the value `Pool.map` collects. -/
def tokenOutcome (exec : String → Except Unit ExecResult)
    (args : String × String × List (String × String)) :
    String × Option Bool :=
  match validate_token exec args with
  | Except.ok r => r
  | Except.error _ => (args.2.1, none)

theorem validate_token_eq_tokenOutcome (exec : String → Except Unit ExecResult)
    (args : String × String × List (String × String)) :
    validate_token exec args = Except.ok (tokenOutcome exec args) := by
  rcases validate_token_ok exec args with ⟨b, hb⟩
  rw [hb, tokenOutcome, hb]

theorem tokenOutcome_fst (exec : String → Except Unit ExecResult)
    (args : String × String × List (String × String)) :
    (tokenOutcome exec args).1 = args.2.1 := by
  rcases validate_token_ok exec args with ⟨b, hb⟩
  rw [tokenOutcome, hb]

theorem mapM_validate_token (exec : String → Except Unit ExecResult)
    (tasks : List (String × String × List (String × String))) :
    tasks.mapM (validate_token exec) =
      Except.ok (tasks.map (tokenOutcome exec)) := by
  induction tasks with
  | nil => rfl
  | cons t rest ih =>
    rw [List.mapM_cons, validate_token_eq_tokenOutcome exec t, ih]
    rfl

theorem validate_all_tokens_ok (exec : String → Except Unit ExecResult)
    (results : List (String × List String)) (vm : List (String × String)) :
    validate_all_tokens exec results vm =
      Except.ok (pairsToDict
        ((validationTasks results vm).map (tokenOutcome exec))) := by
  unfold validate_all_tokens
  rw [mapM_validate_token]
  rfl

theorem dictGet_foldl_dictSet {α : Type} (l : List (String × α))
    (d : List (String × α)) (v : String) :
    dictGet (l.foldl (fun d p => dictSet d p.1 p.2) d) v =
      match l.reverse.find? (fun p => p.1 == v) with
      | some p => some p.2
      | none => dictGet d v := by
  induction l generalizing d with
  | nil => rfl
  | cons p rest ih =>
    rw [List.foldl_cons, ih, List.reverse_cons, List.find?_append]
    cases hf : rest.reverse.find? (fun p => p.1 == v) with
    | some q => rfl
    | none =>
      cases hc : (p.1 == v) with
      | true =>
        have hv : v = p.1 := ((beq_iff_eq).mp hc).symm
        subst hv
        simp only [List.find?, hc, cond_true, Option.none_or]
        exact dictGet_dictSet_self d p.1 p.2
      | false =>
        have hv : v ≠ p.1 := by
          intro he
          rw [he] at hc
          simp at hc
        simp only [List.find?, hc, cond_false, Option.none_or]
        exact dictGet_dictSet_ne d p.1 v p.2 hv

theorem dictGet_pairsToDict {α : Type} (l : List (String × α)) (v : String) :
    dictGet (pairsToDict l) v =
      (l.reverse.find? (fun p => p.1 == v)).map (·.2) := by
  rw [pairsToDict, dictGet_foldl_dictSet]
  cases hf : l.reverse.find? (fun p => p.1 == v) with
  | some q => rfl
  | none => rfl

theorem mem_dictKeys_foldl_dictSet {α : Type} (l : List (String × α))
    (d : List (String × α)) (v : String) :
    v ∈ dictKeys (l.foldl (fun d p => dictSet d p.1 p.2) d) ↔
      v ∈ dictKeys d ∨ v ∈ l.map Prod.fst := by
  induction l generalizing d with
  | nil => simp
  | cons p rest ih =>
    rw [List.foldl_cons, ih, mem_dictKeys_dictSet]
    simp only [List.map_cons, List.mem_cons]
    tauto

theorem dictKeys_pairsToDict_nodup {α : Type} (l : List (String × α)) :
    (dictKeys (pairsToDict l)).Nodup := by
  rw [pairsToDict]
  have : ∀ d : List (String × α), (dictKeys d).Nodup →
      (dictKeys (l.foldl (fun d p => dictSet d p.1 p.2) d)).Nodup := by
    induction l with
    | nil => exact fun d h => h
    | cons p rest ih =>
      exact fun d h => ih _ (dictKeys_nodup_dictSet d p.1 p.2 h)
  exact this [] (by simp [dictKeys])

theorem mem_dictKeys_pairsToDict {α : Type} (l : List (String × α))
    (v : String) :
    v ∈ dictKeys (pairsToDict l) ↔ v ∈ l.map Prod.fst := by
  rw [pairsToDict, mem_dictKeys_foldl_dictSet]
  simp [dictKeys]

theorem mem_validationTasks_loop (results : List (String × List String))
    (vm : List (String × String))
    (acc : List (String × String × List (String × String)))
    (t : String × String × List (String × String)) :
    t ∈ results.foldl
        (fun acc nm => acc ++ nm.2.map (fun m => (nm.1, m, vm))) acc ↔
      t ∈ acc ∨ ∃ nm ∈ results, ∃ m ∈ nm.2, t = (nm.1, m, vm) := by
  induction results generalizing acc with
  | nil => simp
  | cons nm rest ih =>
    rw [List.foldl_cons, ih]
    simp only [List.mem_append, List.mem_map, List.mem_cons]
    constructor
    · rintro ((h | ⟨m, hm, rfl⟩) | ⟨q, hq, m, hm, rfl⟩)
      · exact Or.inl h
      · exact Or.inr ⟨nm, Or.inl rfl, m, hm, rfl⟩
      · exact Or.inr ⟨q, Or.inr hq, m, hm, rfl⟩
    · rintro (h | ⟨q, (rfl | hq), m, hm, rfl⟩)
      · exact Or.inl (Or.inl h)
      · exact Or.inl (Or.inr ⟨m, hm, rfl⟩)
      · exact Or.inr ⟨q, hq, m, hm, rfl⟩

theorem mem_validationTasks (results : List (String × List String))
    (vm : List (String × String))
    (t : String × String × List (String × String)) :
    t ∈ validationTasks results vm ↔
      ∃ nm ∈ results, ∃ m ∈ nm.2, t = (nm.1, m, vm) := by
  rw [validationTasks, mem_validationTasks_loop]
  simp

theorem find?_map_tokenOutcome (exec : String → Except Unit ExecResult)
    (l : List (String × String × List (String × String))) (v : String) :
    ((l.map (tokenOutcome exec)).find? (fun p => p.1 == v)).map (·.2) =
      (l.find? (fun t => t.2.1 == v)).map
        (fun t => (tokenOutcome exec t).2) := by
  induction l with
  | nil => rfl
  | cons t rest ih =>
    rw [List.map_cons]
    show ((List.find? _ (tokenOutcome exec t :: _)).map (·.2)) = _
    rw [List.find?, List.find?]
    have he : ((tokenOutcome exec t).1 == v) = (t.2.1 == v) := by
      rw [tokenOutcome_fst]
    rw [he]
    cases hc : (t.2.1 == v) with
    | true => rfl
    | false => exact ih

theorem scan_loop_log_mono (findall : String → String → Option (List String))
    (text : String) (ps : List PatternDef)
    (acc : List (String × List String) × List String) (x : String)
    (hx : x ∈ acc.2) : x ∈ (ps.foldl (scanPattern findall text) acc).2 := by
  induction ps generalizing acc with
  | nil => exact hx
  | cons p rest ih =>
    refine ih _ ?_
    rcases hfa : findall (wrapRegex p.regex) text with _ | ms
    · simp only [scanPattern, hfa]
      exact List.mem_append_left _ hx
    · simp only [scanPattern, hfa]
      by_cases hms : ms ≠ []
      · rw [if_pos hms]
        exact List.mem_append_left _ hx
      · rw [if_neg hms]
        exact List.mem_append_left _ hx

theorem scanPattern_log_warning (findall : String → String → Option (List String))
    (text : String) (acc : List (String × List String) × List String)
    (p : PatternDef) (hbad : findall (wrapRegex p.regex) text = none) :
    ("Warning: Invalid regex pattern for " ++ p.name ++ ": " ++ wrapRegex p.regex)
      ∈ (scanPattern findall text acc p).2 := by
  simp only [scanPattern, hbad]
  exact List.mem_append_right _ (by simp)

theorem find_matches_warning (findall : String → String → Option (List String))
    (ps : List PatternDef) (text : String) (p : PatternDef) (hp : p ∈ ps)
    (hbad : findall (wrapRegex p.regex) text = none) :
    ("Warning: Invalid regex pattern for " ++ p.name ++ ": " ++ wrapRegex p.regex)
      ∈ (find_matches findall ps text).2 := by
  rcases List.append_of_mem hp with ⟨l₁, l₂, rfl⟩
  unfold find_matches
  rw [List.foldl_append, List.foldl_cons]
  exact scan_loop_log_mono findall text l₂ _ _
    (scanPattern_log_warning findall text _ p hbad)

/-- C1: for every loaded pattern set and input text, after scanning, every
pattern name of the set appears exactly once as a key of the resulting
MatchSet (the key list has no duplicates and holds exactly the pattern
names), each mapped to a set of matches; a pattern that produced zero
matches (its `findall` result being empty or its regex failing to compile)
is still present, with the empty set. -/
theorem claim_C1_matchset_keys
    (findall : String → String → Option (List String))
    (ps : List PatternDef) (text : String) :
    (dictKeys (find_matches findall ps text).1).Nodup ∧
    (∀ n, n ∈ dictKeys (find_matches findall ps text).1 ↔
      n ∈ ps.map PatternDef.name) ∧
    (∀ p ∈ ps, ∃ s : List String,
      dictGet (find_matches findall ps text).1 p.name = some s) ∧
    (∀ p ∈ ps, (ps.map PatternDef.name).Nodup →
      rawMatches findall text p = [] →
      dictGet (find_matches findall ps text).1 p.name = some []) := by
  refine ⟨?_, ?_, ?_, ?_⟩
  · rw [find_matches_keys]
    exact dictKeys_initResults_nodup ps
  · intro n
    rw [find_matches_keys]
    exact mem_dictKeys_initResults ps n
  · intro p hp
    have hmem : p.name ∈ dictKeys (find_matches findall ps text).1 := by
      rw [find_matches_keys]
      exact (mem_dictKeys_initResults ps p.name).mpr
        (List.mem_map.mpr ⟨p, hp, rfl⟩)
    exact Option.isSome_iff_exists.mp ((dictGet_isSome_iff _ _).mpr hmem)
  · intro p hp hnodup hraw
    rw [find_matches_get findall ps text p hp hnodup, patternMatches, hraw]
    rfl

/-- Witness for C1: a pattern with no matches still has its key, mapped to
the empty set. -/
theorem claim_C1_matchset_keys_witness :
    (∃ s : List String,
      dictGet (find_matches litEngine [⟨"Test Key", "zz"⟩] "a sk b").1
        "Test Key" = some s) ∧
    dictGet (find_matches litEngine [⟨"Test Key", "zz"⟩] "a sk b").1
      "Test Key" = some [] :=
  ⟨(claim_C1_matchset_keys litEngine [⟨"Test Key", "zz"⟩] "a sk b").2.2.1
    ⟨"Test Key", "zz"⟩ (by simp),
   (claim_C1_matchset_keys litEngine [⟨"Test Key", "zz"⟩] "a sk b").2.2.2
    ⟨"Test Key", "zz"⟩ (by simp) (by decide) (by decide)⟩

/-- C2: for a pattern whose regex compiles, the MatchSet slot holds exactly
the distinct strings `findall` returns for the word-boundary-wrapped regex
(duplicates collapse into a duplicate-free set with the same members), and
the concrete word-boundary behaviour: `abc` does not match inside `xabcy`,
matches standalone and surrounded by punctuation, and the same secret
occurring twice yields a one-element set. -/
theorem claim_C2_slot_is_matches :
    (∀ (findall : String → String → Option (List String))
       (ps : List PatternDef) (text : String) (p : PatternDef)
       (ms : List String), p ∈ ps → (ps.map PatternDef.name).Nodup →
       findall (wrapRegex p.regex) text = some ms →
       ∃ l, dictGet (find_matches findall ps text).1 p.name = some l ∧
         l.Nodup ∧ (∀ x, x ∈ l ↔ x ∈ ms)) ∧
    litEngine (wrapRegex "abc") "xabcy" = some [] ∧
    litEngine (wrapRegex "abc") "abc" = some ["abc"] ∧
    litEngine (wrapRegex "abc") "x.abc,y" = some ["abc"] ∧
    (find_matches litEngine [⟨"Secret", "sk-A"⟩] "sk-A and sk-A").1 =
      [("Secret", ["sk-A"])] := by
  refine ⟨?_, by decide, by decide, by decide, by decide⟩
  intro findall ps text p ms hp hnodup hok
  refine ⟨patternMatches findall text p,
    find_matches_get findall ps text p hp hnodup, ?_, ?_⟩
  · exact setUpdate_nodup [] _ (by simp)
  · intro x
    rw [patternMatches, mem_setUpdate, rawMatches, hok]
    simp

/-- Witness for C2: duplicate matches collapse into a one-element set. -/
theorem claim_C2_slot_is_matches_witness :
    ∃ l, dictGet (find_matches litEngine [⟨"Secret", "sk"⟩] "sk and sk").1
        "Secret" = some l ∧ l.Nodup ∧ (∀ x, x ∈ l ↔ x ∈ ["sk", "sk"]) :=
  claim_C2_slot_is_matches.1 litEngine [⟨"Secret", "sk"⟩] "sk and sk"
    ⟨"Secret", "sk"⟩ ["sk", "sk"] (by simp) (by simp) (by decide)

/-- C3: for the pattern "Mailchimp API Key" with a registered template, a
token without a `us` + 1–2 digit suffix is Invalid with no command executed
(the result is the same for every `exec`), and with the suffix present the
executed command is the template with `$dc$` replaced by that suffix. -/
theorem claim_C3_mailchimp (vm : List (String × String)) (cmd tv : String)
    (hcmd : dictGet vm "Mailchimp API Key" = some cmd) :
    (dcSuffix tv = none →
      ∀ exec, validate_token exec ("Mailchimp API Key", tv, vm) =
        Except.ok (tv, some false)) ∧
    (∀ dc, dcSuffix tv = some dc →
      ∀ exec, validate_token exec ("Mailchimp API Key", tv, vm) =
        runClassify exec "Mailchimp API Key" tv
          (strReplace (strReplace cmd "$dc$" dc) "$token$" tv)) := by
  constructor
  · intro hdc exec
    simp only [validate_token, hcmd, mailchimpStep, if_pos, hdc]
  · intro dc hdc exec
    simp only [validate_token, hcmd, mailchimpStep, if_pos, hdc]

/-- Witness for C3: a suffix-less token is Invalid without running anything,
and a suffixed token's command carries the datacenter substitution. -/
theorem claim_C3_mailchimp_witness :
    validate_token (fun _ => Except.error ())
      ("Mailchimp API Key", "key-noDC",
        [("Mailchimp API Key", "c $dc$ $token$")]) =
      Except.ok ("key-noDC", some false) ∧
    validate_token (fun _ => Except.ok ⟨0, "200"⟩)
      ("Mailchimp API Key", "key-us20",
        [("Mailchimp API Key", "c $dc$ $token$")]) =
      runClassify (fun _ => Except.ok ⟨0, "200"⟩) "Mailchimp API Key"
        "key-us20"
        (strReplace (strReplace "c $dc$ $token$" "$dc$" "us20") "$token$"
          "key-us20") :=
  ⟨(claim_C3_mailchimp [("Mailchimp API Key", "c $dc$ $token$")]
      "c $dc$ $token$" "key-noDC" (by decide)).1 (by decide) _,
   (claim_C3_mailchimp [("Mailchimp API Key", "c $dc$ $token$")]
      "c $dc$ $token$" "key-us20" (by decide)).2 "us20" (by decide) _⟩

/-- C4: for "Heroku API Key" with a registered template, when the command
(the template with `$token$` substituted) completes, the outcome is Valid
exactly when the exit status is zero, the output starts with `[` and the
output contains `"id"`; Invalid in every other completed case. -/
theorem claim_C4_heroku (vm : List (String × String)) (cmd tv : String)
    (exec : String → Except Unit ExecResult) (res : ExecResult)
    (hcmd : dictGet vm "Heroku API Key" = some cmd)
    (hexec : exec (strReplace cmd "$token$" tv) = Except.ok res) :
    validate_token exec ("Heroku API Key", tv, vm) =
      Except.ok (tv, some ((res.returncode == 0) &&
        (startsWithStr res.stdout "[" &&
         containsSub "\"id\"" res.stdout))) := by
  have hstep : mailchimpStep "Heroku API Key" tv cmd = some cmd := by
    rw [mailchimpStep, if_neg (by decide)]
  simp only [validate_token, hcmd, hstep, runClassify, hexec]
  by_cases h0 : res.returncode = 0
  · rw [if_pos h0, if_pos trivial]
    have hb : (res.returncode == 0) = true := by simp [h0]
    by_cases hc : (startsWithStr res.stdout "[" &&
        containsSub "\"id\"" res.stdout) = true
    · rw [if_pos hc, hb, hc]
      rfl
    · rw [if_neg hc, hb]
      rw [Bool.not_eq_true] at hc
      rw [hc]
      rfl
  · rw [if_neg h0]
    have hb : (res.returncode == 0) = false := by simp [h0]
    rw [hb]
    rfl

/-- Witness for C4: an array-shaped output is Valid, a non-array one is
Invalid. -/
theorem claim_C4_heroku_witness :
    validate_token (fun _ => Except.ok ⟨0, "[\x7b\"id\":\"123\"\x7d]"⟩)
      ("Heroku API Key", "tok", [("Heroku API Key", "h $token$")]) =
      Except.ok ("tok", some true) ∧
    validate_token (fun _ => Except.ok ⟨0, "\x7b\"id\":\"123\"\x7d"⟩)
      ("Heroku API Key", "tok", [("Heroku API Key", "h $token$")]) =
      Except.ok ("tok", some false) := by
  constructor
  · have := claim_C4_heroku [("Heroku API Key", "h $token$")] "h $token$"
      "tok" (fun _ => Except.ok ⟨0, "[\x7b\"id\":\"123\"\x7d]"⟩)
      ⟨0, "[\x7b\"id\":\"123\"\x7d]"⟩ (by decide) rfl
    rw [this]
    rfl
  · have := claim_C4_heroku [("Heroku API Key", "h $token$")] "h $token$"
      "tok" (fun _ => Except.ok ⟨0, "\x7b\"id\":\"123\"\x7d"⟩)
      ⟨0, "\x7b\"id\":\"123\"\x7d"⟩ (by decide) rfl
    rw [this]
    rfl

/-- C5: for any pattern name other than "Heroku API Key" with a registered
template (and, for Mailchimp, a present datacenter suffix), when the
substituted command completes, the outcome is Invalid on a non-zero exit
status, and on a zero exit status it is Valid exactly when the output
contains `200`, or contains `id` case-insensitively, or contains `ok`
case-insensitively. -/
theorem claim_C5_generic (name : String) (vm : List (String × String))
    (cmd m tv : String) (exec : String → Except Unit ExecResult)
    (res : ExecResult) (hname : name ≠ "Heroku API Key")
    (hcmd : dictGet vm name = some cmd)
    (hstep : mailchimpStep name tv cmd = some m)
    (hexec : exec (strReplace m "$token$" tv) = Except.ok res) :
    validate_token exec (name, tv, vm) =
      Except.ok (tv, some ((res.returncode == 0) &&
        (containsSub "200" res.stdout ||
         containsSub "id" (strLower res.stdout) ||
         containsSub "ok" (strLower res.stdout)))) := by
  simp only [validate_token, hcmd, hstep, runClassify, hexec]
  by_cases h0 : res.returncode = 0
  · rw [if_pos h0, if_neg hname]
    have hb : (res.returncode == 0) = true := by simp [h0]
    by_cases hc : (containsSub "200" res.stdout ||
        containsSub "id" (strLower res.stdout) ||
        containsSub "ok" (strLower res.stdout)) = true
    · rw [if_pos hc, hb, hc]
      rfl
    · rw [if_neg hc, hb]
      rw [Bool.not_eq_true] at hc
      rw [hc]
      rfl
  · rw [if_neg h0]
    have hb : (res.returncode == 0) = false := by simp [h0]
    rw [hb]
    rfl

/-- Witness for C5: `Status OK` on exit 0 is Valid (case-insensitive `ok`),
and exit 1 is Invalid. -/
theorem claim_C5_generic_witness :
    validate_token (fun _ => Except.ok ⟨0, "Status OK"⟩)
      ("Stripe API Key", "tok", [("Stripe API Key", "c $token$")]) =
      Except.ok ("tok", some true) ∧
    validate_token (fun _ => Except.ok ⟨1, "Status OK"⟩)
      ("Stripe API Key", "tok", [("Stripe API Key", "c $token$")]) =
      Except.ok ("tok", some false) := by
  constructor
  · have := claim_C5_generic "Stripe API Key" [("Stripe API Key", "c $token$")]
      "c $token$" "c $token$" "tok" (fun _ => Except.ok ⟨0, "Status OK"⟩)
      ⟨0, "Status OK"⟩ (by decide) (by decide) (by decide) rfl
    rw [this]
    rfl
  · have := claim_C5_generic "Stripe API Key" [("Stripe API Key", "c $token$")]
      "c $token$" "c $token$" "tok" (fun _ => Except.ok ⟨1, "Status OK"⟩)
      ⟨1, "Status OK"⟩ (by decide) (by decide) (by decide) rfl
    rw [this]
    rfl

/-- C6: a pattern name with no registry entry gives the Unknown outcome for
every `exec` (no command is executed), and the reporter renders a match whose
recorded outcome is Unknown with the "no verification method" label, which
is never the Invalid label. -/
theorem claim_C6_unknown (name tv : String) (vm : List (String × String))
    (hnone : dictGet vm name = none) :
    (∀ exec, validate_token exec (name, tv, vm) = Except.ok (tv, none)) ∧
    (∀ vr : List (String × Option Bool), vr ≠ [] → dictGet vr tv = some none →
      matchLine (some vr) tv = "  - " ++ tv ++ " [No verification method]" ∧
      matchLine (some vr) tv ≠ "  - " ++ tv ++ " [Invalid]") := by
  constructor
  · intro exec
    simp only [validate_token, hnone]
  · intro vr hne hget
    have hrender : matchLine (some vr) tv =
        "  - " ++ tv ++ " [No verification method]" := by
      simp only [matchLine, if_neg hne, hget]
    refine ⟨hrender, ?_⟩
    rw [hrender]
    intro h
    have hd := congrArg String.data h
    rw [String.data_append, String.data_append, String.data_append,
      String.data_append] at hd
    have := List.append_cancel_left hd
    exact absurd this (by decide)

/-- Witness for C6: a token with no verification method is Unknown and is
rendered with the "no verification method" label. -/
theorem claim_C6_unknown_witness :
    validate_token (fun _ => Except.error ()) ("NoMethod Key", "tok", []) =
      Except.ok ("tok", none) ∧
    matchLine (some [("tok", none)]) "tok" =
      "  - tok [No verification method]" :=
  ⟨(claim_C6_unknown "NoMethod Key" "tok" [] rfl).1 _,
   (((claim_C6_unknown "NoMethod Key" "tok" [] rfl).2 [("tok", none)]
      (by decide) (by decide)).1).trans (by decide)⟩

/-- C7: an exception raised by the external command is caught inside the
task and yields the Invalid outcome for that token (the result is
`Except.ok`, not a propagated error), and the aggregated result is still the
dictionary of every task's own outcome — no task's failure removes or alters
the others. -/
theorem claim_C7_exception (exec : String → Except Unit ExecResult)
    (name tv cmd m : String) (vm : List (String × String))
    (hcmd : dictGet vm name = some cmd)
    (hstep : mailchimpStep name tv cmd = some m)
    (hexec : exec (strReplace m "$token$" tv) = Except.error ()) :
    validate_token exec (name, tv, vm) = Except.ok (tv, some false) ∧
    (∀ results, validate_all_tokens exec results vm =
      Except.ok (pairsToDict
        ((validationTasks results vm).map (tokenOutcome exec)))) := by
  constructor
  · simp only [validate_token, hcmd, hstep, runClassify, hexec]
  · intro results
    exact validate_all_tokens_ok exec results vm

/-- Witness for C7: a command that raises is Invalid for its own token, and
the aggregate over two tokens keeps the other token's Valid outcome. -/
theorem claim_C7_exception_witness :
    validate_token
      (fun c => if c = "c tokA" then Except.error () else Except.ok ⟨0, "200"⟩)
      ("Stripe API Key", "tokA", [("Stripe API Key", "c $token$")]) =
      Except.ok ("tokA", some false) ∧
    validate_all_tokens
      (fun c => if c = "c tokA" then Except.error () else Except.ok ⟨0, "200"⟩)
      [("Stripe API Key", ["tokA", "tokB"])] [("Stripe API Key", "c $token$")] =
      Except.ok [("tokA", some false), ("tokB", some true)] := by
  have h := claim_C7_exception
    (fun c => if c = "c tokA" then Except.error () else Except.ok ⟨0, "200"⟩)
    "Stripe API Key" "tokA" "c $token$" "c $token$"
    [("Stripe API Key", "c $token$")] (by decide) (by decide) rfl
  exact ⟨h.1, (h.2 [("Stripe API Key", ["tokA", "tokB"])]).trans rfl⟩

/-- C9: the aggregated VerificationResult is keyed solely by matched string:
its keys are duplicate-free, they are exactly the token values of the
verification tasks, and each key's outcome is the outcome of the *last*
task with that token value — so the same string matched under two pattern
names keeps only the later task's outcome. -/
theorem claim_C9_collision (exec : String → Except Unit ExecResult)
    (results : List (String × List String)) (vm : List (String × String)) :
    ∃ l, validate_all_tokens exec results vm = Except.ok l ∧
      (dictKeys l).Nodup ∧
      (∀ v, v ∈ dictKeys l ↔ ∃ t ∈ validationTasks results vm, t.2.1 = v) ∧
      (∀ v, dictGet l v =
        ((validationTasks results vm).reverse.find? (fun t => t.2.1 == v)).map
          (fun t => (tokenOutcome exec t).2)) := by
  refine ⟨_, validate_all_tokens_ok exec results vm,
    dictKeys_pairsToDict_nodup _, ?_, ?_⟩
  · intro v
    rw [mem_dictKeys_pairsToDict, List.map_map]
    constructor
    · intro h
      rcases List.mem_map.mp h with ⟨t, ht, he⟩
      refine ⟨t, ht, ?_⟩
      rw [← he]
      exact (tokenOutcome_fst exec t).symm ▸ rfl
    · rintro ⟨t, ht, rfl⟩
      exact List.mem_map.mpr ⟨t, ht, tokenOutcome_fst exec t⟩
  · intro v
    rw [dictGet_pairsToDict, ← List.map_reverse, find?_map_tokenOutcome]

/-- Witness for C9: the same string under two pattern names keeps only the
second pattern's outcome. -/
theorem claim_C9_collision_witness :
    ∃ l, validate_all_tokens
        (fun c => if c = "b x" then Except.ok ⟨1, ""⟩ else Except.ok ⟨0, "200"⟩)
        [("A", ["x"]), ("B", ["x"])] [("A", "a $token$"), ("B", "b $token$")] =
        Except.ok l ∧
      (dictKeys l).Nodup ∧ dictGet l "x" = some (some false) := by
  rcases claim_C9_collision
    (fun c => if c = "b x" then Except.ok ⟨1, ""⟩ else Except.ok ⟨0, "200"⟩)
    [("A", ["x"]), ("B", ["x"])] [("A", "a $token$"), ("B", "b $token$")]
    with ⟨l, h1, h2, _, h4⟩
  exact ⟨l, h1, h2, (h4 "x").trans rfl⟩

/-- C10: the per-token verification function is total — for every exec
behaviour and every argument triple it returns `Except.ok` with first
component the input token value and second a tri-state outcome — and
consequently the aggregated result assigns an outcome to every matched
string of the MatchSet. -/
theorem claim_C10_total (exec : String → Except Unit ExecResult) :
    (∀ args : String × String × List (String × String),
      ∃ b : Option Bool, validate_token exec args = Except.ok (args.2.1, b)) ∧
    (∀ (results : List (String × List String)) (vm : List (String × String)),
      ∃ l, validate_all_tokens exec results vm = Except.ok l ∧
        ∀ n s v, (n, s) ∈ results → v ∈ s → (dictGet l v).isSome) := by
  refine ⟨validate_token_ok exec, ?_⟩
  intro results vm
  refine ⟨_, validate_all_tokens_ok exec results vm, ?_⟩
  intro n s v hns hv
  rw [dictGet_isSome_iff, mem_dictKeys_pairsToDict, List.map_map]
  refine List.mem_map.mpr ⟨(n, v, vm), ?_, tokenOutcome_fst exec _⟩
  exact (mem_validationTasks results vm (n, v, vm)).mpr ⟨(n, s), hns, v, hv, rfl⟩

/-- Witness for C10: even an always-raising exec yields a total result. -/
theorem claim_C10_total_witness :
    ∃ b : Option Bool,
      validate_token (fun _ => Except.error ())
        ("Stripe API Key", "tok", [("Stripe API Key", "c $token$")]) =
        Except.ok ("tok", b) :=
  (claim_C10_total (fun _ => Except.error ())).1
    ("Stripe API Key", "tok", [("Stripe API Key", "c $token$")])

/-- C8: a pattern whose word-boundary-wrapped regex fails to compile is
skipped with a warning in the scan log, its key stays in the MatchSet with
an empty set, and every other pattern's slot is the same as in a scan with
the bad pattern removed. -/
theorem claim_C8_bad_regex (findall : String → String → Option (List String))
    (ps : List PatternDef) (text : String) (p : PatternDef) (hp : p ∈ ps)
    (hnodup : (ps.map PatternDef.name).Nodup)
    (hbad : findall (wrapRegex p.regex) text = none) :
    dictGet (find_matches findall ps text).1 p.name = some [] ∧
    ("Warning: Invalid regex pattern for " ++ p.name ++ ": " ++
        wrapRegex p.regex) ∈ (find_matches findall ps text).2 ∧
    (∀ q ∈ ps, q.name ≠ p.name →
      dictGet (find_matches findall ps text).1 q.name =
        dictGet (find_matches findall (ps.erase p) text).1 q.name) := by
  refine ⟨?_, find_matches_warning findall ps text p hp hbad, ?_⟩
  · rw [find_matches_get findall ps text p hp hnodup, patternMatches,
      rawMatches, hbad]
    rfl
  · intro q hq hne
    have hqp : q ≠ p := fun he => hne (he ▸ rfl)
    have hq' : q ∈ ps.erase p := (List.mem_erase_of_ne hqp).mpr hq
    have hnodup' : ((ps.erase p).map PatternDef.name).Nodup :=
      hnodup.sublist ((ps.erase_sublist p).map PatternDef.name)
    rw [find_matches_get findall ps text q hq hnodup,
      find_matches_get findall (ps.erase p) text q hq' hnodup']

/-- Witness for C8: one bad pattern is warned about and left empty, and a
good pattern scans the same with or without it. -/
theorem claim_C8_bad_regex_witness :
    dictGet (find_matches
        (fun r t => if r = wrapRegex "(" then none else litEngine r t)
        [⟨"Bad", "("⟩, ⟨"Good", "sk"⟩] "a sk b").1 "Bad" = some [] ∧
    ("Warning: Invalid regex pattern for " ++ "Bad" ++ ": " ++ wrapRegex "(")
      ∈ (find_matches
        (fun r t => if r = wrapRegex "(" then none else litEngine r t)
        [⟨"Bad", "("⟩, ⟨"Good", "sk"⟩] "a sk b").2 ∧
    dictGet (find_matches
        (fun r t => if r = wrapRegex "(" then none else litEngine r t)
        [⟨"Bad", "("⟩, ⟨"Good", "sk"⟩] "a sk b").1 "Good" =
      dictGet (find_matches
        (fun r t => if r = wrapRegex "(" then none else litEngine r t)
        ([⟨"Bad", "("⟩, ⟨"Good", "sk"⟩].erase ⟨"Bad", "("⟩) "a sk b").1
        "Good" := by
  have h := claim_C8_bad_regex
    (fun r t => if r = wrapRegex "(" then none else litEngine r t)
    [⟨"Bad", "("⟩, ⟨"Good", "sk"⟩] "a sk b" ⟨"Bad", "("⟩ (by simp)
    (by decide) (by decide)
  exact ⟨h.1, h.2.1, h.2.2 ⟨"Good", "sk"⟩ (by simp) (by decide)⟩
